import Mathlib

/-!
Verification development for the FocNet repository (src/focnet.py).

The file shallowly embeds the pure/structural parts of the code:
  * `residual_weights_computation` (focnet.py lines 21-27),
  * the dependency-map construction `build_needs_to_compute`
    (focnet.py lines 95-105) and the default configuration tables
    (focnet.py lines 13-18),
  * the constructor `FocNet.__init__` (focnet.py lines 51-93),
  * the scheduler loop of `FocNet.call` (focnet.py lines 107-172),
    modelled as a fuel-driven step machine parameterised over an abstract
    tensor type; tensor arithmetic (convolution, pooling, upsampling,
    concatenation, addition) is kept abstract through a `TensorOps`
    record, and instantiated with shapes, with a unit type, and with
    formal expression trees for the various theorems.

Machine integers do not occur in the source; Python ints become `ℕ`
(with the few spots where Python could produce `-1` handled explicitly,
see the comments in `schedStep`), Python floats become `ℚ` (the
recursion of `residual_weights_computation` only uses field operations,
so the rational semantics is the exact version of the float code),
and fallible operations (list indexing, dictionary access) go through
`Option`.
-/

/-- Embedding of `residual_weights_computation(t, beta)` (focnet.py
lines 21-27).  `w = [beta]`, then `for k in range(t-1, 0, -1)` the value
`(1 - (1 + beta) / (t - k + 1)) * w[-1]` is appended, and the reversed
list is returned.  `range(t-1, 0, -1)` enumerates `t-1-i` for
`i = 0, ..., t-2`; `w[-1]` is the last element of the (always nonempty)
accumulator, rendered `getLastD _ 0`. -/
def residual_weights_computation (t : ℕ) (beta : ℚ) : List ℚ :=
  let ks := (List.range (t - 1)).map (fun i => t - 1 - i)
  let w := ks.foldl
    (fun (w : List ℚ) (k : ℕ) =>
      w ++ [(1 - (1 + beta) / ((t : ℚ) - (k : ℚ) + 1)) * w.getLastD 0])
    [beta]
  w.reverse

/-- Reference recursion from the spec (§4.3): `w[step-1] = beta` and
`w[k-1] = (1 - (1+beta)/(step-k+1)) * w[k]`.  `specWeight beta i` is the
weight that sits `i` positions before the most recent one, i.e. the
chronological weight `w[step-1-i]`; the recurrence is independent of
`step` once indexed this way. -/
def specWeight (beta : ℚ) : ℕ → ℚ
  | 0 => beta
  | i + 1 => (1 - (1 + beta) / ((i : ℚ) + 2)) * specWeight beta i

theorem residual_weights_zero (beta : ℚ) :
    residual_weights_computation 0 beta = [beta] := rfl

-- Bridge: folding with append-at-end and reading `w[-1]` is the reverse
-- of folding with cons and reading the head.
theorem foldl_append_getLastD_reverse (f : ℕ → ℚ → ℚ) :
    ∀ (ks : List ℕ) (w : List ℚ),
      (ks.foldl (fun w k => w ++ [f k (w.getLastD 0)]) w).reverse =
        ks.foldl (fun r k => f k (r.headD 0) :: r) w.reverse := by
  intro ks
  induction ks with
  | nil => intro w; rfl
  | cons k ks ih =>
    intro w
    have hlast : w.getLastD 0 = w.reverse.headD 0 := by
      cases w with
      | nil => rfl
      | cons a l =>
        rw [List.getLastD_eq_getLast?, List.headD_eq_head?, List.head?_reverse]
    simp only [List.foldl_cons]
    rw [ih (w ++ [f k (w.getLastD 0)])]
    simp [hlast]

/-- The cons-fold step with divisor `i + 2` (anti-chronological form of
the spec recursion). -/
def specStep (beta : ℚ) (r : List ℚ) (i : ℕ) : List ℚ :=
  ((1 - (1 + beta) / ((i : ℚ) + 2)) * r.headD 0) :: r

-- The cons-fold over `0, 1, ..., n-1` with divisor `i + 2` produces the
-- spec weights in anti-chronological order.
theorem foldl_specWeight (beta : ℚ) :
    ∀ n : ℕ,
      (List.range n).foldl (specStep beta) [beta] =
        ((List.range (n + 1)).map (specWeight beta)).reverse := by
  intro n
  induction n with
  | zero => rfl
  | succ n ih =>
    rw [List.range_succ, List.foldl_append, ih]
    have hhead :
        (((List.range (n + 1)).map (specWeight beta)).reverse).headD 0 =
          specWeight beta n := by
      rw [List.range_succ, List.map_append, List.reverse_append]
      rfl
    rw [List.foldl_cons, List.foldl_nil]
    unfold specStep
    rw [hhead]
    rw [List.range_succ (n := n + 1), List.map_append, List.reverse_append]
    rfl

theorem residual_weights_eq_specWeights (t : ℕ) (beta : ℚ) (ht : 1 ≤ t) :
    residual_weights_computation t beta =
      ((List.range t).map (specWeight beta)).reverse := by
  obtain ⟨n, rfl⟩ : ∃ n, t = n + 1 := ⟨t - 1, (Nat.succ_pred_eq_of_pos ht).symm⟩
  unfold residual_weights_computation
  simp only [Nat.add_sub_cancel]
  rw [foldl_append_getLastD_reverse
    (fun k x => (1 - (1 + beta) / (((n + 1 : ℕ) : ℚ) - (k : ℚ) + 1)) * x)]
  simp only [List.reverse_cons, List.reverse_nil, List.nil_append]
  rw [List.foldl_map]
  have hcongr :
      (List.range n).foldl
          (fun (r : List ℚ) (i : ℕ) =>
            (1 - (1 + beta) / (((n + 1 : ℕ) : ℚ) - ((n - i : ℕ) : ℚ) + 1)) *
                r.headD 0 :: r) [beta] =
        (List.range n).foldl (specStep beta) [beta] := by
    apply List.foldl_ext
    intro r i hi
    have hin : i < n := List.mem_range.mp hi
    have hsub : ((n - i : ℕ) : ℚ) = (n : ℚ) - (i : ℚ) :=
      Nat.cast_sub (Nat.le_of_lt hin)
    unfold specStep
    rw [hsub]
    push_cast
    ring_nf
  rw [hcongr, foldl_specWeight]

/-! ## Configuration and dependency map -/

/-- A coordinate `(scale, step)` in the network. -/
abbrev Coord : Type := ℕ × ℕ

/-- Default `n_convs_per_scale` (focnet.py line 13). -/
def DEFAULT_N_CONVS_PER_SCALE : List ℕ := [5, 11, 11, 7]

/-- Default `communications_between_scales` (focnet.py lines 14-18). -/
def DEFAULT_COMMUNICATION_BETWEEN_SCALES : List (List (ℕ × ℕ)) :=
  [[(1, 0), (1, 2), (2, 3), (2, 5), (3, 6), (3, 8), (4, 9), (4, 11)],
   [(1, 0), (1, 2), (4, 3), (4, 5), (7, 6), (7, 8), (10, 9), (10, 11)],
   [(1, 0), (1, 1), (4, 2), (4, 3), (7, 4), (7, 5), (10, 6), (10, 7)]]

/-- The constructor arguments of `FocNet.__init__` (focnet.py lines
51-60), all of which have defaults. -/
structure FocNetConfig where
  n_scales : ℕ
  n_filters : ℕ
  kernel_size : ℕ
  n_convs_per_scale : List ℕ
  communications_between_scales : List (List (ℕ × ℕ))
  beta : ℚ

/-- The default constructor arguments (focnet.py lines 51-60):
`n_scales=4`, `n_filters=128`, `kernel_size=3`, the default tables, and
`beta=0.2`. -/
def defaultConfig : FocNetConfig :=
  { n_scales := 4
    n_filters := 128
    kernel_size := 3
    n_convs_per_scale := DEFAULT_N_CONVS_PER_SCALE
    communications_between_scales := DEFAULT_COMMUNICATION_BETWEEN_SCALES
    beta := 1/5 }

/-- A Python dict from coordinates to coordinates, as its lookup
function (`dict.get(key, None)`). -/
abbrev DepMap : Type := Coord → Option Coord

/-- Dict assignment `m[k] = v`: a later assignment overrides an earlier
one. -/
def insertDep (m : DepMap) (k v : Coord) : DepMap :=
  fun x => if x = k then some v else m x

/-- The inner loop of `build_needs_to_compute` (focnet.py lines
97-105): iterate one adjacency list with the `down` flag, assigning
`needs_to_compute[scale_down_node] = scale_up_node` when `down` and the
reverse otherwise, negating `down` after each pair. -/
def buildScaleDeps (i_scale : ℕ) (pairs : List (ℕ × ℕ)) (start : DepMap × Bool) :
    DepMap × Bool :=
  pairs.foldl
    (fun p kv =>
      let scale_up_node : Coord := (i_scale, kv.1)
      let scale_down_node : Coord := (i_scale + 1, kv.2)
      (if p.2 then insertDep p.1 scale_down_node scale_up_node
       else insertDep p.1 scale_up_node scale_down_node,
       !p.2))
    start

/-- Embedding of `FocNet.build_needs_to_compute` (focnet.py lines
95-105): fold over `enumerate(communications_between_scales)`, with
`down = True` reset at the start of every adjacency list. -/
def build_needs_to_compute (comms : List (List (ℕ × ℕ))) : DepMap :=
  (comms.enum.foldl
    (fun m isc => (buildScaleDeps isc.1 isc.2 (m, true)).1)
    (fun _ => none))

/-- Modelled from the spec (§4.2) for the refinement claim about
`build_needs_to_compute`: the ordered list of (receiver, source)
dependency records produced by one adjacency list, starting from a given
direction flag (`true` = downscale) and flipping it after every pair. -/
def specScaleRecords (s : ℕ) : List (ℕ × ℕ) → Bool → List (Coord × Coord)
  | [], _ => []
  | kv :: rest, down =>
    (if down then ((s + 1, kv.2), (s, kv.1)) else ((s, kv.1), (s + 1, kv.2))) ::
      specScaleRecords s rest (!down)

/-- Modelled from the spec (§4.2): all dependency records, adjacency
lists in order, each started with direction `downscale`. -/
def specDependencyRecords (comms : List (List (ℕ × ℕ))) : List (Coord × Coord) :=
  (comms.enum.map (fun isc => specScaleRecords isc.1 isc.2 true)).flatten

/-- Lookup in an ordered record list where a later record for the same
receiver overrides an earlier one (dict semantics). -/
def lookupLastRecord (recs : List (Coord × Coord)) (x : Coord) : Option Coord :=
  recs.foldl (fun acc r => if x = r.1 then some r.2 else acc) none

theorem buildScaleDeps_eq_records (s : ℕ) (x : Coord) :
    ∀ (pairs : List (ℕ × ℕ)) (m : DepMap) (down : Bool),
      (buildScaleDeps s pairs (m, down)).1 x =
        (specScaleRecords s pairs down).foldl
          (fun acc r => if x = r.1 then some r.2 else acc) (m x) := by
  intro pairs
  induction pairs with
  | nil => intro m down; rfl
  | cons kv rest ih =>
    intro m down
    have hstep :
        buildScaleDeps s (kv :: rest) (m, down) =
          buildScaleDeps s rest
            (if down then insertDep m (s + 1, kv.2) (s, kv.1)
             else insertDep m (s, kv.1) (s + 1, kv.2), !down) := by
      cases down <;> rfl
    rw [hstep]
    rw [ih (if down then insertDep m (s + 1, kv.2) (s, kv.1)
            else insertDep m (s, kv.1) (s + 1, kv.2)) (!down)]
    have hrec :
        specScaleRecords s (kv :: rest) down =
          (if down then ((s + 1, kv.2), (s, kv.1))
           else ((s, kv.1), (s + 1, kv.2))) :: specScaleRecords s rest (!down) := by
      cases down <;> rfl
    rw [hrec, List.foldl_cons]
    congr 1
    cases down <;> simp [insertDep]

theorem enumFrom_fold_deps (x : Coord) :
    ∀ (comms : List (List (ℕ × ℕ))) (n : ℕ) (m : DepMap),
      ((List.enumFrom n comms).foldl
          (fun m isc => (buildScaleDeps isc.1 isc.2 (m, true)).1) m) x =
        ((List.enumFrom n comms).map
            (fun isc => specScaleRecords isc.1 isc.2 true)).flatten.foldl
          (fun acc r => if x = r.1 then some r.2 else acc) (m x) := by
  intro comms
  induction comms with
  | nil => intro n m; rfl
  | cons c rest ih =>
    intro n m
    have henum : List.enumFrom n (c :: rest) = (n, c) :: List.enumFrom (n + 1) rest := rfl
    rw [henum, List.foldl_cons, List.map_cons, List.flatten_cons, List.foldl_append]
    rw [ih (n + 1) ((buildScaleDeps n c (m, true)).1)]
    rw [buildScaleDeps_eq_records n x c m true]

/-- CLAIM C5: `build_needs_to_compute` constructs the dependency
mapping by iterating each adjacency list with a direction flag starting
at downscale, recording `(s+1, step_lower) -> (s, step_upper)` when
the flag is downscale and `(s, step_upper) -> (s+1, step_lower)`
otherwise, flipping the flag after every pair; for every input
adjacency table the resulting mapping equals this reference
construction (read with dict semantics: a later record for the same
receiver overrides an earlier one). -/
theorem claim_C5 (comms : List (List (ℕ × ℕ))) (x : Coord) :
    build_needs_to_compute comms x = lookupLastRecord (specDependencyRecords comms) x := by
  unfold build_needs_to_compute lookupLastRecord specDependencyRecords
  have henum : comms.enum = List.enumFrom 0 comms := rfl
  rw [henum]
  exact enumFrom_fold_deps x comms 0 (fun _ => none)

/-! ## The constructor -/

/-- The state built by `FocNet.__init__` (focnet.py lines 51-93).  Each
`FocConvBlock` instance is represented by its constructor arguments
`(n_filters, kernel_size)`; `conv_blocks_per_scale` mirrors the nested
list comprehension of lines 79-85 (one independent block per step of
each scale). -/
structure FocNet where
  n_scales : ℕ
  n_filters : ℕ
  kernel_size : ℕ
  n_convs_per_scale : List ℕ
  communications_between_scales : List (List (ℕ × ℕ))
  beta : ℚ
  conv_blocks_per_scale : List (List (ℕ × ℕ))
  needs_to_compute : DepMap

/-- Embedding of `FocNet.__init__` (focnet.py lines 51-93).  The return
type is `Except` so that a raising constructor is expressible; the
body has no raise statement and no operation that can fail (the two
loops only iterate over the argument lists), so every path ends in
`.ok`. -/
def focNetInit (cfg : FocNetConfig) : Except Unit FocNet :=
  .ok
    { n_scales := cfg.n_scales
      n_filters := cfg.n_filters
      kernel_size := cfg.kernel_size
      n_convs_per_scale := cfg.n_convs_per_scale
      communications_between_scales := cfg.communications_between_scales
      beta := cfg.beta
      conv_blocks_per_scale :=
        cfg.n_convs_per_scale.map
          (fun n_conv_blocks =>
            (List.range n_conv_blocks).map (fun _ => (cfg.n_filters, cfg.kernel_size)))
      needs_to_compute := build_needs_to_compute cfg.communications_between_scales }

/-- An invalid configuration: `len(n_convs_per_scale) = 1 ≠ 4 =
n_scales`, `len(communications_between_scales) = 1 ≠ 3 = n_scales - 1`,
the single communication pair references step 7 at scale 0 (out of
bounds for `n_convs_per_scale[0] = 5`) and step 9 at scale 1 (which does
not exist at all). -/
def invalidConfig : FocNetConfig :=
  { n_scales := 4
    n_filters := 128
    kernel_size := 3
    n_convs_per_scale := [5]
    communications_between_scales := [[(7, 9)]]
    beta := 1/5 }

/-! ## The scheduler of `FocNet.call` -/

/-- The tensor operations `FocNet.call` delegates to (tensorflow layers
and arithmetic).  The scheduler never inspects a tensor, so they are
kept abstract; partiality of the real operations (shape mismatches) is
expressed by instantiating `τ` with an `Option` type whose operations
absorb failure. -/
structure TensorOps (τ : Type) where
  firstConv : τ → τ
  convBlock : ℕ → ℕ → τ → τ
  pool : τ → τ
  unpool : τ → τ
  concat : τ → τ → τ
  add : τ → τ → τ
  smul : ℚ → τ → τ
  finalConv : τ → τ

/-- The mutable state of the while loop in `FocNet.call` (focnet.py
lines 108-111): the scale cursor, the step cursor, and the per-scale
feature stores.  `conv_log` is instrumentation recording, for every
`ConvBlock` invocation, the coordinate and the length of the current
scale's store at the moment of the call (it influences nothing). -/
structure SchedState (τ : Type) where
  i_scale : ℕ
  i_feature : ℕ
  features_per_scale : List (List τ)
  conv_log : List (ℕ × ℕ × ℕ)
deriving DecidableEq

/-- Result of one iteration of the while loop: another iteration
follows, the loop condition failed (terminal state), or the Python code
raised (out-of-range list index). -/
inductive StepResult (τ : Type) where
  | next (s : SchedState τ)
  | done (s : SchedState τ)
  | fail
deriving DecidableEq

/-- Lines 158-168 of focnet.py, shared by all paths of the loop body:
invoke `conv_blocks_per_scale[i_scale][i_feature]` on `feature` (fails
when `i_feature` is not a valid block index), add the weighted residual
sum of all features stored at the current scale, append, and advance
`i_feature`.  `stores` already contains the resampled seed feature when
the dependency branch added one. -/
def computeAndStore {τ : Type} (cfg : FocNetConfig) (ops : TensorOps τ)
    (s : SchedState τ) (sc ft : ℕ) (stores : List (List τ)) (feature : τ) :
    StepResult τ :=
  match cfg.n_convs_per_scale.get? sc with
  | none => .fail
  | some nc =>
    if ft < nc then
      match stores.get? sc with
      | none => .fail
      | some stc =>
        let new0 := ops.convBlock sc ft feature
        let weights := residual_weights_computation ft cfg.beta
        let new := (weights.zip stc).foldl
          (fun acc wr => ops.add acc (ops.smul wr.1 wr.2)) new0
        .next
          { i_scale := sc
            i_feature := ft + 1
            features_per_scale := stores.set sc (stc ++ [new])
            conv_log := s.conv_log ++ [(sc, ft, stc.length)] }
    else .fail

/-- Lines 116-160 of focnet.py: the loop body once the (possibly
popped) cursor `(sc, ft)` is settled.  Consult `needs_to_compute`; on an
unresolved dependency jump (`continue`, line 130, with
`max(n_features_scale_to_compute - 1, 0)` being exactly truncated
subtraction on `ℕ`); on a resolved one resample it (`unpool` when the
source scale is below the current one, `pool` otherwise) and either seed
an empty store with it or concatenate it to
`features_per_scale[i_scale][i_feature]`; with no dependency use
`features_per_scale[i_scale][-1]`.  Every Python list subscript goes
through `get?`; raising = `.fail`. -/
def schedStepAt {τ : Type} (cfg : FocNetConfig) (ntc : DepMap) (ops : TensorOps τ)
    (s : SchedState τ) (sc ft : ℕ) : StepResult τ :=
  match ntc (sc, ft) with
  | some node =>
    match s.features_per_scale.get? node.1 with
    | none => .fail
    | some st2 =>
      if st2.length ≤ node.2 then
        .next { s with i_scale := node.1, i_feature := st2.length - 1 }
      else
        match st2.get? node.2 with
        | none => .fail
        | some additional_feature =>
          let processed :=
            if sc < node.1 then ops.unpool additional_feature
            else ops.pool additional_feature
          match s.features_per_scale.get? sc with
          | none => .fail
          | some stc =>
            if stc.length = 0 then
              computeAndStore cfg ops s sc ft
                (s.features_per_scale.set sc (stc ++ [processed])) processed
            else
              match stc.get? ft with
              | none => .fail
              | some cur =>
                computeAndStore cfg ops s sc ft s.features_per_scale
                  (ops.concat cur processed)
  | none =>
    match s.features_per_scale.get? sc with
    | none => .fail
    | some stc =>
      match stc.getLast? with
      | none => .fail
      | some feature =>
        computeAndStore cfg ops s sc ft s.features_per_scale feature

/-- One iteration of the while loop of `FocNet.call` (focnet.py lines
112-168).  Notes on the Python-to-Lean translation:
  * the loop condition `i_scale != 0 or i_feature < n_convs_per_scale[0]`
    is checked first; `n_convs_per_scale[0]` raises on an empty list
    (the initial state always has `i_scale = 0`, so the short-circuit
    cannot mask that on the first iteration);
  * in the pop branch (lines 113-115), `i_feature = len(...) - 1` would
    be `-1` in Python on an empty parent store, after which
    `features_per_scale[i_scale][-1]` on that same empty store raises,
    so an empty parent store is rendered directly as `.fail`
    (the dependency keys are natural numbers, so `(i_scale, -1)` is
    never a key);
  * the rest of the body is `schedStepPop`: the overflow test of line
    113 against `n_convs_per_scale[i_scale]`, then `schedStepAt` on the
    popped cursor when line 113 popped and on the current cursor
    otherwise. -/
def schedStepPop {τ : Type} (cfg : FocNetConfig) (ntc : DepMap) (ops : TensorOps τ)
    (s : SchedState τ) (nc : ℕ) : StepResult τ :=
  if nc ≤ s.i_feature then
    match s.features_per_scale.get? (s.i_scale - 1) with
    | none => .fail
    | some stp =>
      if stp.length = 0 then .fail
      else schedStepAt cfg ntc ops s (s.i_scale - 1) (stp.length - 1)
  else schedStepAt cfg ntc ops s s.i_scale s.i_feature

/-- One iteration of the while loop of `FocNet.call` (focnet.py lines
112-168): the loop condition (line 112, with `n_convs_per_scale[0]`
raising on an empty list), then `schedStepPop` with
`n_convs_per_scale[i_scale]`. -/
def schedStep {τ : Type} (cfg : FocNetConfig) (ntc : DepMap) (ops : TensorOps τ)
    (s : SchedState τ) : StepResult τ :=
  match cfg.n_convs_per_scale.get? 0 with
  | none => .fail
  | some n0 =>
    if s.i_scale = 0 ∧ n0 ≤ s.i_feature then .done s
    else
      match cfg.n_convs_per_scale.get? s.i_scale with
      | none => .fail
      | some nc => schedStepPop cfg ntc ops s nc

/-- Run the while loop for at most `fuel` iterations, returning the
state in which the loop condition failed. -/
def runSched {τ : Type} (cfg : FocNetConfig) (ntc : DepMap) (ops : TensorOps τ) :
    ℕ → SchedState τ → Option (SchedState τ)
  | 0, _ => none
  | fuel + 1, s =>
    match schedStep cfg ntc ops s with
    | .done st => some st
    | .next s2 => runSched cfg ntc ops fuel s2
    | .fail => none

/-- The state at the top of the loop (focnet.py lines 108-111): one
empty store per scale, the stem `first_conv(inputs)` appended to the
store of scale 0, cursors at `(0, 0)`. -/
def mkInitState {τ : Type} (cfg : FocNetConfig) (ops : TensorOps τ) (input : τ) :
    SchedState τ :=
  { i_scale := 0
    i_feature := 0
    features_per_scale :=
      (List.replicate cfg.n_scales ([] : List τ)).set 0 [ops.firstConv input]
    conv_log := [] }

/-- Embedding of `FocNet.call` (focnet.py lines 107-172): build the
initial state (`features_per_scale[0].append` raises when `n_scales =
0`), run the loop, then apply the final `1x1` convolution to
`features_per_scale[0][n_convs_per_scale[0]]` (line 169). -/
def focnetCall {τ : Type} (cfg : FocNetConfig) (ops : TensorOps τ) (input : τ)
    (fuel : ℕ) : Option τ :=
  if cfg.n_scales = 0 then none
  else
    match runSched cfg (build_needs_to_compute cfg.communications_between_scales)
        ops fuel (mkInitState cfg ops input) with
    | none => none
    | some st =>
      match cfg.n_convs_per_scale.get? 0 with
      | none => none
      | some n0 =>
        match st.features_per_scale.get? 0 with
        | none => none
        | some store0 =>
          match store0.get? n0 with
          | none => none
          | some f => some (ops.finalConv f)

/-- The dependency map of the default configuration. -/
def defaultNtc : DepMap :=
  build_needs_to_compute DEFAULT_COMMUNICATION_BETWEEN_SCALES

/-! ### Instantiations of the tensor interface -/

/-- Trivial instantiation: only the control flow remains. -/
def unitOps : TensorOps Unit :=
  { firstConv := fun _ => ()
    convBlock := fun _ _ _ => ()
    pool := fun _ => ()
    unpool := fun _ => ()
    concat := fun _ _ => ()
    add := fun _ _ => ()
    smul := fun _ _ => ()
    finalConv := fun _ => () }

/-- A tensor shape `(channels, height, width)` (the batch dimension is
constant throughout and omitted). -/
abbrev Shape : Type := ℕ × ℕ × ℕ

/-- Shape semantics of the tensorflow operations used by `FocNet.call`,
on `Option Shape` (`none` = a shape error was raised):
  * `Conv2D`/`FocConvBlock` with `padding='same'` and `n_filters = nf`
    maps `(c, h, w)` to `(nf, h, w)`;
  * `AveragePooling2D(padding='same')` (pool size and stride 2) maps
    `h` to `⌈h/2⌉`;
  * `UpSampling2D()` doubles both spatial dimensions;
  * `tf.concat(axis=-1)` requires equal spatial dimensions and adds
    channel counts;
  * `+` requires equal shapes; scalar `*` preserves the shape;
  * the final `Conv2D(1, 1)` maps `(c, h, w)` to `(1, h, w)`. -/
def shapeOps (nf : ℕ) : TensorOps (Option Shape) :=
  { firstConv := Option.map (fun s => (nf, s.2.1, s.2.2))
    convBlock := fun _ _ => Option.map (fun s => (nf, s.2.1, s.2.2))
    pool := Option.map (fun s => (s.1, (s.2.1 + 1) / 2, (s.2.2 + 1) / 2))
    unpool := Option.map (fun s => (s.1, 2 * s.2.1, 2 * s.2.2))
    concat := fun a b =>
      match a, b with
      | some s, some t =>
        if s.2.1 = t.2.1 ∧ s.2.2 = t.2.2 then some (s.1 + t.1, s.2.1, s.2.2) else none
      | _, _ => none
    add := fun a b =>
      match a, b with
      | some s, some t => if s = t then some s else none
      | _, _ => none
    smul := fun _ t => t
    finalConv := Option.map (fun s => (1, s.2.1, s.2.2)) }

/-- Formal expression trees over the tensor operations, to state
exactly which computation a stored feature is. -/
inductive FExpr : Type where
  | input : FExpr
  | firstConvE (e : FExpr) : FExpr
  | convBlockE (sc ft : ℕ) (e : FExpr) : FExpr
  | poolE (e : FExpr) : FExpr
  | unpoolE (e : FExpr) : FExpr
  | concatE (a b : FExpr) : FExpr
  | addE (a b : FExpr) : FExpr
  | smulE (w : ℚ) (e : FExpr) : FExpr
  | finalConvE (e : FExpr) : FExpr
deriving DecidableEq

/-- The free instantiation: every operation builds its expression
tree. -/
def exprOps : TensorOps FExpr :=
  { firstConv := FExpr.firstConvE
    convBlock := FExpr.convBlockE
    pool := FExpr.poolE
    unpool := FExpr.unpoolE
    concat := FExpr.concatE
    add := FExpr.addE
    smul := FExpr.smulE
    finalConv := FExpr.finalConvE }

/-! ### The concrete run of the default configuration

The loop of `FocNet.call` on the default configuration performs 55
iterations and then finds the loop condition false on the 56th check.
The intermediate states are listed literally (they were computed by
evaluating `schedStep`) and certified by `chainOk`, which re-runs every
step.  All stores are uniform lists, so a state is determined by the
cursor, the four store lengths and how many convolutions have been
logged. -/

/-- The complete `conv_log` of the default run: coordinates in
invocation order, each with the store length at invocation time. -/
def defaultConvLog : List (ℕ × ℕ × ℕ) :=
  [(0, 0, 1), (1, 0, 1), (2, 0, 1), (3, 0, 1), (3, 1, 2), (2, 1, 2), (2, 2, 3),
   (1, 1, 2), (1, 2, 3), (0, 1, 2), (1, 3, 4), (2, 3, 4), (3, 2, 3), (3, 3, 4),
   (2, 4, 5), (2, 5, 6), (1, 4, 5), (1, 5, 6), (0, 2, 3), (1, 6, 7), (2, 6, 7),
   (3, 4, 5), (3, 5, 6), (2, 7, 8), (2, 8, 9), (1, 7, 8), (1, 8, 9), (0, 3, 4),
   (1, 9, 10), (2, 9, 10), (3, 6, 7), (2, 10, 11), (1, 10, 11), (0, 4, 5)]

/-- A state of the unit-instantiated scheduler: cursor `(sc, ft)`,
store lengths `a b c d`, `k` convolutions logged so far. -/
def ust (sc ft a b c d k : ℕ) : SchedState Unit :=
  { i_scale := sc
    i_feature := ft
    features_per_scale :=
      [List.replicate a (), List.replicate b (), List.replicate c (), List.replicate d ()]
    conv_log := defaultConvLog.take k }

/-- A state of the shape-instantiated scheduler on a `1x8x8` input with
128 filters: every feature stored at scale `s` has shape
`(128, 8/2^s, 8/2^s)`. -/
def sst (sc ft a b c d k : ℕ) : SchedState (Option Shape) :=
  { i_scale := sc
    i_feature := ft
    features_per_scale :=
      [List.replicate a (some (128, 8, 8)), List.replicate b (some (128, 4, 4)),
       List.replicate c (some (128, 2, 2)), List.replicate d (some (128, 1, 1))]
    conv_log := defaultConvLog.take k }

/-- The 55 successor states of the default run (the initial state is
`ust 0 0 1 0 0 0 0`). -/
def defaultTraceCtrl : List (ℕ × ℕ × ℕ × ℕ × ℕ × ℕ × ℕ) :=
  [(0, 1, 2, 0, 0, 0, 1), (1, 0, 2, 0, 0, 0, 1), (1, 1, 2, 2, 0, 0, 2),
   (2, 0, 2, 2, 0, 0, 2), (2, 1, 2, 2, 2, 0, 3), (3, 0, 2, 2, 2, 0, 3),
   (3, 1, 2, 2, 2, 2, 4), (3, 2, 2, 2, 2, 3, 5), (2, 1, 2, 2, 2, 3, 5),
   (2, 2, 2, 2, 3, 3, 6), (2, 3, 2, 2, 4, 3, 7), (1, 1, 2, 2, 4, 3, 7),
   (1, 2, 2, 3, 4, 3, 8), (1, 3, 2, 4, 4, 3, 9), (0, 1, 2, 4, 4, 3, 9),
   (0, 2, 3, 4, 4, 3, 10), (1, 3, 3, 4, 4, 3, 10), (1, 4, 3, 5, 4, 3, 11),
   (2, 3, 3, 5, 4, 3, 11), (2, 4, 3, 5, 5, 3, 12), (3, 2, 3, 5, 5, 3, 12),
   (3, 3, 3, 5, 5, 4, 13), (3, 4, 3, 5, 5, 5, 14), (2, 4, 3, 5, 5, 5, 14),
   (2, 5, 3, 5, 6, 5, 15), (2, 6, 3, 5, 7, 5, 16), (1, 4, 3, 5, 7, 5, 16),
   (1, 5, 3, 6, 7, 5, 17), (1, 6, 3, 7, 7, 5, 18), (0, 2, 3, 7, 7, 5, 18),
   (0, 3, 4, 7, 7, 5, 19), (1, 6, 4, 7, 7, 5, 19), (1, 7, 4, 8, 7, 5, 20),
   (2, 6, 4, 8, 7, 5, 20), (2, 7, 4, 8, 8, 5, 21), (3, 4, 4, 8, 8, 5, 21),
   (3, 5, 4, 8, 8, 6, 22), (3, 6, 4, 8, 8, 7, 23), (2, 7, 4, 8, 8, 7, 23),
   (2, 8, 4, 8, 9, 7, 24), (2, 9, 4, 8, 10, 7, 25), (1, 7, 4, 8, 10, 7, 25),
   (1, 8, 4, 9, 10, 7, 26), (1, 9, 4, 10, 10, 7, 27), (0, 3, 4, 10, 10, 7, 27),
   (0, 4, 5, 10, 10, 7, 28), (1, 9, 5, 10, 10, 7, 28), (1, 10, 5, 11, 10, 7, 29),
   (2, 9, 5, 11, 10, 7, 29), (2, 10, 5, 11, 11, 7, 30), (3, 6, 5, 11, 11, 7, 30),
   (3, 7, 5, 11, 11, 8, 31), (2, 11, 5, 11, 12, 8, 32), (1, 11, 5, 12, 12, 8, 33),
   (0, 5, 6, 12, 12, 8, 34)]

/-- The unit-instantiated intermediate states. -/
def unitTrace : List (SchedState Unit) :=
  defaultTraceCtrl.map (fun t => ust t.1 t.2.1 t.2.2.1 t.2.2.2.1 t.2.2.2.2.1 t.2.2.2.2.2.1 t.2.2.2.2.2.2)

/-- The shape-instantiated intermediate states. -/
def shapeTrace : List (SchedState (Option Shape)) :=
  defaultTraceCtrl.map (fun t => sst t.1 t.2.1 t.2.2.1 t.2.2.2.1 t.2.2.2.2.1 t.2.2.2.2.2.1 t.2.2.2.2.2.2)

/-- Certificate check: `chainOk s l` re-runs the scheduler, checking
that each state of `l` is the `.next` successor of the previous one. -/
def chainOk {τ : Type} [DecidableEq τ] (cfg : FocNetConfig) (ntc : DepMap)
    (ops : TensorOps τ) : SchedState τ → List (SchedState τ) → Bool
  | _, [] => true
  | s, s2 :: rest =>
    (schedStep cfg ntc ops s == .next s2) && chainOk cfg ntc ops s2 rest

theorem runSched_of_chain {τ : Type} [DecidableEq τ] (cfg : FocNetConfig)
    (ntc : DepMap) (ops : TensorOps τ) :
    ∀ (l : List (SchedState τ)) (s st : SchedState τ),
      chainOk cfg ntc ops s l = true →
      schedStep cfg ntc ops (l.getLastD s) = .done st →
      runSched cfg ntc ops (l.length + 1) s = some st := by
  intro l
  induction l with
  | nil =>
    intro s st _ hdone
    simp only [List.getLastD_nil] at hdone
    simp [runSched, hdone]
  | cons s2 rest ih =>
    intro s st hchain hdone
    simp only [chainOk, Bool.and_eq_true, beq_iff_eq] at hchain
    simp only [List.getLastD_cons] at hdone
    simp only [List.length_cons]
    show runSched cfg ntc ops (rest.length + 1 + 1) s = some st
    rw [show rest.length + 1 + 1 = (rest.length + 1) + 1 from rfl]
    simp only [runSched, hchain.1]
    exact ih s2 st hchain.2 hdone

theorem runSched_none_of_chain {τ : Type} [DecidableEq τ] (cfg : FocNetConfig)
    (ntc : DepMap) (ops : TensorOps τ) :
    ∀ (l : List (SchedState τ)) (s : SchedState τ),
      chainOk cfg ntc ops s l = true →
      runSched cfg ntc ops l.length s = none := by
  intro l
  induction l with
  | nil => intro s _; rfl
  | cons s2 rest ih =>
    intro s hchain
    simp only [chainOk, Bool.and_eq_true, beq_iff_eq] at hchain
    simp only [List.length_cons, runSched, hchain.1]
    exact ih s2 hchain.2

set_option maxHeartbeats 1000000 in
theorem unitChainOk :
    chainOk defaultConfig defaultNtc unitOps (ust 0 0 1 0 0 0 0) unitTrace = true := by decide

set_option maxHeartbeats 1000000 in
theorem shapeChainOk :
    chainOk defaultConfig defaultNtc (shapeOps 128) (sst 0 0 1 0 0 0 0) shapeTrace = true := by
  decide

theorem unitDoneStep :
    schedStep defaultConfig defaultNtc unitOps (unitTrace.getLastD (ust 0 0 1 0 0 0 0)) =
      .done (ust 0 5 6 12 12 8 34) := by decide

theorem shapeDoneStep :
    schedStep defaultConfig defaultNtc (shapeOps 128)
        (shapeTrace.getLastD (sst 0 0 1 0 0 0 0)) =
      .done (sst 0 5 6 12 12 8 34) := by decide

/-- The default run, unit instantiation: 55 iterations, then the
terminal check succeeds. -/
theorem default_unit_run :
    runSched defaultConfig defaultNtc unitOps 56 (mkInitState defaultConfig unitOps ()) =
      some (ust 0 5 6 12 12 8 34) := by
  have h0 : mkInitState defaultConfig unitOps () = ust 0 0 1 0 0 0 0 := by decide
  rw [h0, show (56 : ℕ) = unitTrace.length + 1 by decide]
  exact runSched_of_chain defaultConfig defaultNtc unitOps unitTrace
    (ust 0 0 1 0 0 0 0) (ust 0 5 6 12 12 8 34) unitChainOk unitDoneStep

/-- Fifty-five units of fuel are not enough: the loop really performs
55 iterations before the terminal check. -/
theorem default_unit_run_none :
    runSched defaultConfig defaultNtc unitOps 55 (mkInitState defaultConfig unitOps ()) =
      none := by
  have h0 : mkInitState defaultConfig unitOps () = ust 0 0 1 0 0 0 0 := by decide
  rw [h0, show (55 : ℕ) = unitTrace.length by decide]
  exact runSched_none_of_chain defaultConfig defaultNtc unitOps unitTrace
    (ust 0 0 1 0 0 0 0) unitChainOk

/-- The default run, shape instantiation, on a single-channel `8x8`
input. -/
theorem default_shape_run :
    runSched defaultConfig defaultNtc (shapeOps 128) 56
        (mkInitState defaultConfig (shapeOps 128) (some (1, 8, 8))) =
      some (sst 0 5 6 12 12 8 34) := by
  have h0 : mkInitState defaultConfig (shapeOps 128) (some (1, 8, 8)) =
      sst 0 0 1 0 0 0 0 := by decide
  rw [h0, show (56 : ℕ) = shapeTrace.length + 1 by decide]
  exact runSched_of_chain defaultConfig defaultNtc (shapeOps 128) shapeTrace
    (sst 0 0 1 0 0 0 0) (sst 0 5 6 12 12 8 34) shapeChainOk shapeDoneStep

/-- Evaluating `FocNet.call` on the default configuration and a
`1x8x8` input returns a `1x8x8` output. -/
theorem focnetCall_default_shape :
    focnetCall defaultConfig (shapeOps 128) (some (1, 8, 8)) 56 = some (some (1, 8, 8)) := by
  have h : runSched defaultConfig
      (build_needs_to_compute defaultConfig.communications_between_scales) (shapeOps 128) 56
      (mkInitState defaultConfig (shapeOps 128) (some (1, 8, 8))) =
      some (sst 0 5 6 12 12 8 34) := default_shape_run
  unfold focnetCall
  rw [if_neg (by decide : ¬ defaultConfig.n_scales = 0), h]
  decide

/-! ### Erasure: the control flow of the loop ignores tensor values

Mapping every tensor to `()` commutes with the step function: the loop
branches only on store lengths and cursor values, never on a tensor.
This makes the iteration count of a run independent of the input and of
the tensor semantics. -/

/-- Forget a tensor. -/
def eraseT {τ : Type} : τ → Unit := fun _ => ()

/-- Forget all tensors in a state, keeping the control data. -/
def eraseState {τ : Type} (s : SchedState τ) : SchedState Unit :=
  { i_scale := s.i_scale
    i_feature := s.i_feature
    features_per_scale := s.features_per_scale.map (List.map eraseT)
    conv_log := s.conv_log }

/-- Forget all tensors in a step result. -/
def eraseResult {τ : Type} : StepResult τ → StepResult Unit
  | .next s => .next (eraseState s)
  | .done s => .done (eraseState s)
  | .fail => .fail

theorem computeAndStore_erase {τ : Type} (cfg : FocNetConfig) (ops : TensorOps τ)
    (s : SchedState τ) (sc ft : ℕ) (stores : List (List τ)) (feature : τ) :
    computeAndStore cfg unitOps (eraseState s) sc ft (stores.map (List.map eraseT)) () =
      eraseResult (computeAndStore cfg ops s sc ft stores feature) := by
  unfold computeAndStore
  cases hnc : cfg.n_convs_per_scale.get? sc with
  | none => rfl
  | some nc =>
    cases hsc : stores.get? sc with
    | none =>
      simp only [List.get?_map, hsc, Option.map_none', eraseResult]
      by_cases hft : ft < nc
      · simp [hft]
      · simp [hft]
    | some stc =>
      simp only [List.get?_map, hsc, Option.map_some', eraseResult]
      by_cases hft : ft < nc
      · simp only [hft, if_true, eraseState]
        congr 1
        simp [List.map_set, List.map_append, eraseState]
      · simp [hft]

theorem schedStepAt_erase {τ : Type} (cfg : FocNetConfig) (ntc : DepMap)
    (ops : TensorOps τ) (s : SchedState τ) (sc ft : ℕ) :
    schedStepAt cfg ntc unitOps (eraseState s) sc ft =
      eraseResult (schedStepAt cfg ntc ops s sc ft) := by
  unfold schedStepAt
  cases hdep : ntc (sc, ft) with
  | none =>
    cases hsc : s.features_per_scale.get? sc with
    | none =>
      simp only [eraseState, List.get?_map, hsc, Option.map_none', eraseResult]
    | some stc =>
      simp only [eraseState, List.get?_map, hsc, Option.map_some', List.getLast?_map]
      cases hlast : stc.getLast? with
      | none => simp [eraseResult]
      | some cur =>
        simp only [Option.map_some']
        exact computeAndStore_erase cfg ops s sc ft s.features_per_scale cur
  | some node =>
    cases h2 : s.features_per_scale.get? node.1 with
    | none =>
      simp only [eraseState, List.get?_map, h2, Option.map_none', eraseResult]
    | some st2 =>
      simp only [eraseState, List.get?_map, h2, Option.map_some', List.length_map]
      by_cases hjump : st2.length ≤ node.2
      · simp only [hjump, if_true, eraseResult, eraseState]
      · simp only [hjump, if_false]
        cases hget : st2.get? node.2 with
        | none => simp [eraseResult]
        | some af =>
          simp only [Option.map_some']
          cases hsc : s.features_per_scale.get? sc with
          | none => simp [eraseResult]
          | some stc =>
            simp only [Option.map_some', List.length_map]
            by_cases hempty : stc.length = 0
            · simp only [hempty, if_true]
              have h := computeAndStore_erase cfg ops s sc ft
                (s.features_per_scale.set sc
                  (stc ++ [if sc < node.1 then ops.unpool af else ops.pool af]))
                (if sc < node.1 then ops.unpool af else ops.pool af)
              rw [List.map_set, List.map_append] at h
              simp only [List.map_cons, List.map_nil] at h
              by_cases hdir : sc < node.1 <;>
                simpa [hdir, unitOps] using h
            · simp only [hempty, if_false]
              cases hcur : stc.get? ft with
              | none => simp only [List.get?_map, hcur, Option.map_none', eraseResult]
              | some cur =>
                simp only [List.get?_map, hcur, Option.map_some']
                exact computeAndStore_erase cfg ops s sc ft s.features_per_scale
                  (ops.concat cur (if sc < node.1 then ops.unpool af else ops.pool af))

theorem schedStepPop_erase {τ : Type} (cfg : FocNetConfig) (ntc : DepMap)
    (ops : TensorOps τ) (s : SchedState τ) (nc : ℕ) :
    schedStepPop cfg ntc unitOps (eraseState s) nc =
      eraseResult (schedStepPop cfg ntc ops s nc) := by
  unfold schedStepPop
  by_cases hpop : nc ≤ s.i_feature
  · have he : (eraseState s).i_feature = s.i_feature := rfl
    rw [he, if_pos hpop, if_pos hpop]
    cases hstp : s.features_per_scale.get? (s.i_scale - 1) with
    | none => simp only [eraseState, List.get?_map, hstp, Option.map_none', eraseResult]
    | some stp =>
      simp only [eraseState, List.get?_map, hstp, Option.map_some', List.length_map]
      by_cases hlen : stp.length = 0
      · simp only [hlen, if_true, eraseResult]
      · simp only [hlen, if_false]
        exact schedStepAt_erase cfg ntc ops s (s.i_scale - 1) (stp.length - 1)
  · have he : (eraseState s).i_feature = s.i_feature := rfl
    rw [he, if_neg hpop, if_neg hpop]
    exact schedStepAt_erase cfg ntc ops s s.i_scale s.i_feature

theorem schedStep_erase {τ : Type} (cfg : FocNetConfig) (ntc : DepMap)
    (ops : TensorOps τ) (s : SchedState τ) :
    schedStep cfg ntc unitOps (eraseState s) = eraseResult (schedStep cfg ntc ops s) := by
  unfold schedStep
  cases hn0 : cfg.n_convs_per_scale.get? 0 with
  | none => rfl
  | some n0 =>
    simp only [eraseState]
    by_cases hterm : s.i_scale = 0 ∧ n0 ≤ s.i_feature
    · rw [if_pos hterm, if_pos hterm]; rfl
    · rw [if_neg hterm, if_neg hterm]
      cases hnc : cfg.n_convs_per_scale.get? s.i_scale with
      | none => rfl
      | some nc => exact schedStepPop_erase cfg ntc ops s nc

theorem runSched_erase {τ : Type} (cfg : FocNetConfig) (ntc : DepMap)
    (ops : TensorOps τ) :
    ∀ (fuel : ℕ) (s : SchedState τ),
      runSched cfg ntc unitOps fuel (eraseState s) =
        (runSched cfg ntc ops fuel s).map eraseState := by
  intro fuel
  induction fuel with
  | zero => intro s; rfl
  | succ fuel ih =>
    intro s
    simp only [runSched]
    rw [schedStep_erase cfg ntc ops s]
    cases hstep : schedStep cfg ntc ops s with
    | done st => simp [eraseResult]
    | next s2 =>
      simp only [eraseResult]
      exact ih s2
    | fail => rfl

/-! ### Shape invariant of the base scale

Every feature ever stored at scale 0 has the spatial size of the stem
(hence of the input): the store of scale 0 starts nonempty, so the
seeding branch never runs there, and both the concatenation and the
residual additions only succeed on spatially matching shapes. -/

/-- Predicate: `x` is `none` or has spatial size `H x W`. -/
def spatialOK (H W : ℕ) (x : Option Shape) : Prop :=
  ∀ c h w, x = some (c, h, w) → h = H ∧ w = W

def store0Inv (H W : ℕ) (stores : List (List (Option Shape))) : Prop :=
  ∃ l, stores.get? 0 = some l ∧ l ≠ [] ∧ ∀ x ∈ l, spatialOK H W x

theorem spatialOK_none (H W : ℕ) : spatialOK H W none := by
  intro c h w h2
  cases h2

theorem spatialOK_convBlock (nf H W : ℕ) (sc ft : ℕ) (x : Option Shape)
    (hx : spatialOK H W x) : spatialOK H W ((shapeOps nf).convBlock sc ft x) := by
  cases x with
  | none => exact spatialOK_none H W
  | some v =>
    intro c h w h2
    simp only [shapeOps, Option.map_some', Option.some.injEq] at h2
    rcases (hx v.1 v.2.1 v.2.2 rfl) with ⟨h1, h2'⟩
    cases h2
    exact ⟨h1, h2'⟩

theorem spatialOK_addFold (nf H W : ℕ) (lst : List (ℚ × Option Shape))
    (acc : Option Shape) (hacc : spatialOK H W acc) :
    spatialOK H W
      (lst.foldl (fun a wr => (shapeOps nf).add a ((shapeOps nf).smul wr.1 wr.2)) acc) := by
  induction lst generalizing acc with
  | nil => exact hacc
  | cons p rest ih =>
    apply ih
    intro c h w h2
    simp only [] at h2
    cases acc with
    | none => cases h2
    | some v =>
      cases hb : (shapeOps nf).smul p.1 p.2 with
      | none => rw [hb] at h2; cases h2
      | some u =>
        rw [hb] at h2
        simp only [shapeOps] at h2
        by_cases he : v = u
        · rw [if_pos he] at h2
          cases h2
          exact hacc c h w rfl
        · rw [if_neg he] at h2
          cases h2

theorem store0Inv_computeAndStore (nf H W : ℕ) (cfg : FocNetConfig)
    (s : SchedState (Option Shape)) (sc ft : ℕ)
    (stores : List (List (Option Shape))) (feature : Option Shape)
    (s2 : SchedState (Option Shape))
    (hst : store0Inv H W stores)
    (hfeat : sc = 0 → spatialOK H W feature)
    (h : computeAndStore cfg (shapeOps nf) s sc ft stores feature = .next s2) :
    store0Inv H W s2.features_per_scale := by
  unfold computeAndStore at h
  rcases hst with ⟨l, hl, hne, hmem⟩
  cases hnc : cfg.n_convs_per_scale.get? sc with
  | none => rw [hnc] at h; cases h
  | some nc =>
    rw [hnc] at h
    simp only [] at h
    by_cases hft : ft < nc
    · rw [if_pos hft] at h
      cases hsc : stores.get? sc with
      | none =>
        rw [hsc] at h
        simp only [] at h
        cases h
      | some stc =>
        rw [hsc] at h
        simp only [] at h
        cases h
        by_cases h0 : sc = 0
        · subst h0
          have hstc : stc = l := by
            rw [hsc] at hl
            exact Option.some.inj hl
          subst hstc
          refine ⟨stc ++
            [List.foldl (fun acc wr => (shapeOps nf).add acc ((shapeOps nf).smul wr.1 wr.2))
              ((shapeOps nf).convBlock 0 ft feature)
              ((residual_weights_computation ft cfg.beta).zip stc)], ?_, ?_, ?_⟩
          · have hlen : (0 : ℕ) < stores.length := by
              by_contra hcon
              rw [List.get?_eq_none.mpr (Nat.le_of_not_lt hcon)] at hl
              cases hl
            exact List.get?_set_eq_of_lt _ hlen
          · simp
          · intro x hx
            rcases List.mem_append.mp hx with hx | hx
            · exact hmem x hx
            · rcases List.mem_singleton.mp hx with rfl
              apply spatialOK_addFold
              apply spatialOK_convBlock
              exact hfeat rfl
        · refine ⟨l, ?_, hne, hmem⟩
          rw [List.get?_set_ne _ _ h0]
          exact hl
    · rw [if_neg hft] at h; cases h

theorem spatialOK_concat (nf H W : ℕ) (a b : Option Shape)
    (ha : spatialOK H W a) : spatialOK H W ((shapeOps nf).concat a b) := by
  intro c h w hcc
  cases a with
  | none => cases hcc
  | some v =>
    cases b with
    | none => cases hcc
    | some u =>
      simp only [shapeOps] at hcc
      by_cases hsp : v.2.1 = u.2.1 ∧ v.2.2 = u.2.2
      · rw [if_pos hsp] at hcc
        cases hcc
        exact ha v.1 v.2.1 v.2.2 rfl
      · rw [if_neg hsp] at hcc
        cases hcc

theorem store0Inv_schedStepAt (nf H W : ℕ) (cfg : FocNetConfig) (ntc : DepMap)
    (s : SchedState (Option Shape)) (sc ft : ℕ) (s2 : SchedState (Option Shape))
    (hst : store0Inv H W s.features_per_scale)
    (h : schedStepAt cfg ntc (shapeOps nf) s sc ft = .next s2) :
    store0Inv H W s2.features_per_scale := by
  unfold schedStepAt at h
  cases hdep : ntc (sc, ft) with
  | none =>
    rw [hdep] at h
    simp only [] at h
    cases hsc : s.features_per_scale.get? sc with
    | none => rw [hsc] at h; simp only [] at h; cases h
    | some stc =>
      rw [hsc] at h
      simp only [] at h
      cases hlast : stc.getLast? with
      | none => rw [hlast] at h; simp only [] at h; cases h
      | some cur =>
        rw [hlast] at h
        simp only [] at h
        refine store0Inv_computeAndStore nf H W cfg s sc ft s.features_per_scale cur s2 hst ?_ h
        intro h0
        subst h0
        rcases hst with ⟨l, hl, hne, hmem⟩
        have hstc : stc = l := by
          rw [hsc] at hl
          exact Option.some.inj hl
        subst hstc
        exact hmem cur (List.mem_of_mem_getLast? hlast)
  | some node =>
    rw [hdep] at h
    simp only [] at h
    cases h2 : s.features_per_scale.get? node.1 with
    | none => rw [h2] at h; simp only [] at h; cases h
    | some st2 =>
      rw [h2] at h
      simp only [] at h
      by_cases hjump : st2.length ≤ node.2
      · rw [if_pos hjump] at h
        cases h
        exact hst
      · rw [if_neg hjump] at h
        cases hget : st2.get? node.2 with
        | none => rw [hget] at h; simp only [] at h; cases h
        | some af =>
          rw [hget] at h
          simp only [] at h
          cases hsc : s.features_per_scale.get? sc with
          | none => rw [hsc] at h; simp only [] at h; cases h
          | some stc =>
            rw [hsc] at h
            simp only [] at h
            by_cases hempty : stc.length = 0
            · rw [if_pos hempty] at h
              by_cases h0 : sc = 0
              · exfalso
                subst h0
                rcases hst with ⟨l, hl, hne, hmem⟩
                have hstc : stc = l := by
                  rw [hsc] at hl
                  exact Option.some.inj hl
                subst hstc
                exact hne (List.length_eq_zero.mp hempty)
              · rcases hst with ⟨l, hl, hne, hmem⟩
                refine store0Inv_computeAndStore nf H W cfg s sc ft _ _ s2 ?_ ?_ h
                · refine ⟨l, ?_, hne, hmem⟩
                  rw [List.get?_set_ne _ _ h0]
                  exact hl
                · intro hcon; exact absurd hcon h0
            · rw [if_neg hempty] at h
              cases hcur : stc.get? ft with
              | none => rw [hcur] at h; simp only [] at h; cases h
              | some cur =>
                rw [hcur] at h
                simp only [] at h
                refine store0Inv_computeAndStore nf H W cfg s sc ft
                  s.features_per_scale _ s2 hst ?_ h
                intro h0
                rcases hst with ⟨l, hl, hne, hmem⟩
                have hstc : stc = l := by
                  rw [h0] at hsc
                  rw [hsc] at hl
                  exact Option.some.inj hl
                apply spatialOK_concat
                apply hmem
                rw [hstc] at hcur
                exact List.get?_mem hcur

theorem store0Inv_schedStepPop (nf H W : ℕ) (cfg : FocNetConfig) (ntc : DepMap)
    (s : SchedState (Option Shape)) (nc : ℕ) (s2 : SchedState (Option Shape))
    (hst : store0Inv H W s.features_per_scale)
    (h : schedStepPop cfg ntc (shapeOps nf) s nc = .next s2) :
    store0Inv H W s2.features_per_scale := by
  unfold schedStepPop at h
  by_cases hpop : nc ≤ s.i_feature
  · rw [if_pos hpop] at h
    cases hstp : s.features_per_scale.get? (s.i_scale - 1) with
    | none => rw [hstp] at h; simp only [] at h; cases h
    | some stp =>
      rw [hstp] at h
      simp only [] at h
      by_cases hlen : stp.length = 0
      · rw [if_pos hlen] at h; cases h
      · rw [if_neg hlen] at h
        exact store0Inv_schedStepAt nf H W cfg ntc s _ _ s2 hst h
  · rw [if_neg hpop] at h
    exact store0Inv_schedStepAt nf H W cfg ntc s _ _ s2 hst h

theorem store0Inv_schedStep (nf H W : ℕ) (cfg : FocNetConfig) (ntc : DepMap)
    (s : SchedState (Option Shape)) (s2 : SchedState (Option Shape))
    (hst : store0Inv H W s.features_per_scale)
    (h : schedStep cfg ntc (shapeOps nf) s = .next s2) :
    store0Inv H W s2.features_per_scale := by
  unfold schedStep at h
  cases hn0 : cfg.n_convs_per_scale.get? 0 with
  | none => rw [hn0] at h; cases h
  | some n0 =>
    rw [hn0] at h
    simp only [] at h
    by_cases hterm : s.i_scale = 0 ∧ n0 ≤ s.i_feature
    · rw [if_pos hterm] at h; cases h
    · rw [if_neg hterm] at h
      cases hnc : cfg.n_convs_per_scale.get? s.i_scale with
      | none => rw [hnc] at h; simp only [] at h; cases h
      | some nc =>
        rw [hnc] at h
        simp only [] at h
        exact store0Inv_schedStepPop nf H W cfg ntc s nc s2 hst h

theorem schedStep_done_eq {τ : Type} (cfg : FocNetConfig) (ntc : DepMap)
    (ops : TensorOps τ) (s st : SchedState τ)
    (h : schedStep cfg ntc ops s = .done st) : st = s := by
  have hAt : ∀ sc ft, schedStepAt cfg ntc ops s sc ft ≠ .done st := by
    intro sc ft hcon
    unfold schedStepAt at hcon
    have hCAS : ∀ stores feature,
        computeAndStore cfg ops s sc ft stores feature ≠ (.done st : StepResult τ) := by
      intro stores feature hc
      unfold computeAndStore at hc
      cases hnc : cfg.n_convs_per_scale.get? sc with
      | none => rw [hnc] at hc; cases hc
      | some nc =>
        rw [hnc] at hc
        simp only [] at hc
        by_cases hft : ft < nc
        · rw [if_pos hft] at hc
          cases hsc : stores.get? sc with
          | none => rw [hsc] at hc; simp only [] at hc; cases hc
          | some stc => rw [hsc] at hc; simp only [] at hc; cases hc
        · rw [if_neg hft] at hc; cases hc
    cases hdep : ntc (sc, ft) with
    | none =>
      rw [hdep] at hcon
      simp only [] at hcon
      cases hsc : s.features_per_scale.get? sc with
      | none => rw [hsc] at hcon; simp only [] at hcon; cases hcon
      | some stc =>
        rw [hsc] at hcon
        simp only [] at hcon
        cases hlast : stc.getLast? with
        | none => rw [hlast] at hcon; simp only [] at hcon; cases hcon
        | some cur =>
          rw [hlast] at hcon
          simp only [] at hcon
          exact hCAS _ _ hcon
    | some node =>
      rw [hdep] at hcon
      simp only [] at hcon
      cases h2 : s.features_per_scale.get? node.1 with
      | none => rw [h2] at hcon; simp only [] at hcon; cases hcon
      | some st2 =>
        rw [h2] at hcon
        simp only [] at hcon
        by_cases hjump : st2.length ≤ node.2
        · rw [if_pos hjump] at hcon; cases hcon
        · rw [if_neg hjump] at hcon
          cases hget : st2.get? node.2 with
          | none => rw [hget] at hcon; simp only [] at hcon; cases hcon
          | some af =>
            rw [hget] at hcon
            simp only [] at hcon
            cases hsc : s.features_per_scale.get? sc with
            | none => rw [hsc] at hcon; simp only [] at hcon; cases hcon
            | some stc =>
              rw [hsc] at hcon
              simp only [] at hcon
              by_cases hempty : stc.length = 0
              · rw [if_pos hempty] at hcon
                exact hCAS _ _ hcon
              · rw [if_neg hempty] at hcon
                cases hcur : stc.get? ft with
                | none => rw [hcur] at hcon; simp only [] at hcon; cases hcon
                | some cur =>
                  rw [hcur] at hcon
                  simp only [] at hcon
                  exact hCAS _ _ hcon
  unfold schedStep at h
  cases hn0 : cfg.n_convs_per_scale.get? 0 with
  | none => rw [hn0] at h; cases h
  | some n0 =>
    rw [hn0] at h
    simp only [] at h
    by_cases hterm : s.i_scale = 0 ∧ n0 ≤ s.i_feature
    · rw [if_pos hterm] at h
      cases h
      rfl
    · exfalso
      rw [if_neg hterm] at h
      cases hnc : cfg.n_convs_per_scale.get? s.i_scale with
      | none => rw [hnc] at h; simp only [] at h; cases h
      | some nc =>
        rw [hnc] at h
        simp only [] at h
        unfold schedStepPop at h
        by_cases hpop : nc ≤ s.i_feature
        · rw [if_pos hpop] at h
          cases hstp : s.features_per_scale.get? (s.i_scale - 1) with
          | none => rw [hstp] at h; simp only [] at h; cases h
          | some stp =>
            rw [hstp] at h
            simp only [] at h
            by_cases hlen : stp.length = 0
            · rw [if_pos hlen] at h; cases h
            · rw [if_neg hlen] at h
              exact hAt _ _ h
        · rw [if_neg hpop] at h
          exact hAt _ _ h

theorem store0Inv_runSched (nf H W : ℕ) (cfg : FocNetConfig) (ntc : DepMap) :
    ∀ (fuel : ℕ) (s st : SchedState (Option Shape)),
      store0Inv H W s.features_per_scale →
      runSched cfg ntc (shapeOps nf) fuel s = some st →
      store0Inv H W st.features_per_scale := by
  intro fuel
  induction fuel with
  | zero => intro s st _ h; cases h
  | succ fuel ih =>
    intro s st hst h
    simp only [runSched] at h
    cases hstep : schedStep cfg ntc (shapeOps nf) s with
    | done st2 =>
      rw [hstep] at h
      simp only [] at h
      have h2 : st = st2 := (Option.some.inj h).symm
      rw [h2, schedStep_done_eq cfg ntc (shapeOps nf) s st2 hstep]
      exact hst
    | next s2 =>
      rw [hstep] at h
      simp only [] at h
      exact ih s2 st (store0Inv_schedStep nf H W cfg ntc s s2 hst hstep) h
    | fail => rw [hstep] at h; cases h

/-- CLAIM C9: for every configuration and every input tensor with `C`
channels and spatial size `H x W` with `H` and `W` divisible by
`2^(n_scales-1)`, if the forward pass `FocNet.call` completes and
returns a tensor (in shape semantics: no shape error and no
out-of-range access occurred, which is what a valid configuration
guarantees), then that tensor has exactly 1 channel and the same
spatial dimensions `H x W` as the input. -/
theorem claim_C9 (cfg : FocNetConfig) (C H W hq wq fuel : ℕ)
    (_hH : H = 2 ^ (cfg.n_scales - 1) * hq) (_hW : W = 2 ^ (cfg.n_scales - 1) * wq)
    (c2 h2 w2 : ℕ)
    (hrun : focnetCall cfg (shapeOps cfg.n_filters) (some (C, H, W)) fuel =
      some (some (c2, h2, w2))) :
    c2 = 1 ∧ h2 = H ∧ w2 = W := by
  unfold focnetCall at hrun
  by_cases hns : cfg.n_scales = 0
  · rw [if_pos hns] at hrun; cases hrun
  · rw [if_neg hns] at hrun
    cases hrs : runSched cfg (build_needs_to_compute cfg.communications_between_scales)
        (shapeOps cfg.n_filters) fuel
        (mkInitState cfg (shapeOps cfg.n_filters) (some (C, H, W))) with
    | none => rw [hrs] at hrun; cases hrun
    | some st =>
      rw [hrs] at hrun
      simp only [] at hrun
      cases hn0 : cfg.n_convs_per_scale.get? 0 with
      | none => rw [hn0] at hrun; simp only [] at hrun; cases hrun
      | some n0 =>
        rw [hn0] at hrun
        simp only [] at hrun
        cases hs0 : st.features_per_scale.get? 0 with
        | none => rw [hs0] at hrun; simp only [] at hrun; cases hrun
        | some store0 =>
          rw [hs0] at hrun
          simp only [] at hrun
          cases hf : store0.get? n0 with
          | none => rw [hf] at hrun; simp only [] at hrun; cases hrun
          | some f =>
            rw [hf] at hrun
            simp only [] at hrun
            have hinit : store0Inv H W
                (mkInitState cfg (shapeOps cfg.n_filters) (some (C, H, W))).features_per_scale := by
              refine ⟨[some (cfg.n_filters, H, W)], ?_, by simp, ?_⟩
              · unfold mkInitState
                simp only []
                have hlen : (0 : ℕ) < (List.replicate cfg.n_scales
                    ([] : List (Option Shape))).length := by
                  rw [List.length_replicate]
                  exact Nat.pos_of_ne_zero hns
                exact List.get?_set_eq_of_lt _ hlen
              · intro x hx
                rcases List.mem_singleton.mp hx with rfl
                intro c h w hcc
                simp only [shapeOps, Option.map_some', Option.some.injEq] at hcc
                cases hcc
                exact ⟨rfl, rfl⟩
            have hstInv := store0Inv_runSched cfg.n_filters H W cfg
              (build_needs_to_compute cfg.communications_between_scales) fuel
              (mkInitState cfg (shapeOps cfg.n_filters) (some (C, H, W))) st hinit hrs
            rcases hstInv with ⟨l, hl, hne, hmem⟩
            have hstore0 : store0 = l := by
              rw [hs0] at hl
              exact Option.some.inj hl
            subst hstore0
            have hfmem : f ∈ store0 := List.get?_mem hf
            cases f with
            | none => cases hrun
            | some v =>
              simp only [shapeOps, Option.map_some', Option.some.injEq] at hrun
              have hok := hmem (some v) hfmem v.1 v.2.1 v.2.2 rfl
              rcases hrun with hrun
              cases hrun
              exact ⟨rfl, hok.1.symm ▸ rfl, hok.2.symm ▸ rfl⟩

/-! ## The claims -/

/-- The state after the very first loop iteration of the default run,
in expression-tree semantics: the stem, then the feature of coordinate
`(0, 0)`, which is the ConvBlock output PLUS `beta` times the stem. -/
def exprState1 : SchedState FExpr :=
  { i_scale := 0
    i_feature := 1
    features_per_scale :=
      [[FExpr.firstConvE FExpr.input,
        FExpr.addE (FExpr.convBlockE 0 0 (FExpr.firstConvE FExpr.input))
          (FExpr.smulE defaultConfig.beta (FExpr.firstConvE FExpr.input))],
       [], [], []]
    conv_log := [(0, 0, 1)] }

/-- CLAIM C1 counterexample: `residual_weights_computation(0, beta)` is
NOT empty (`range(t-1, 0, -1)` is empty for `t = 0`, so the function
returns the seed `[beta]` untouched), and consequently the feature
materialized at step 0 of scale 0 in the default run is the ConvBlock
output plus `beta` times the stem, not the raw ConvBlock output. -/
theorem claim_C1_counterexample :
    residual_weights_computation 0 (1/5) ≠ [] ∧
    schedStep defaultConfig defaultNtc exprOps
        (mkInitState defaultConfig exprOps FExpr.input) = .next exprState1 ∧
    (exprState1.features_per_scale.headD []).get? 1 =
      some (FExpr.addE (FExpr.convBlockE 0 0 (FExpr.firstConvE FExpr.input))
        (FExpr.smulE defaultConfig.beta (FExpr.firstConvE FExpr.input))) ∧
    (exprState1.features_per_scale.headD []).get? 1 ≠
      some (FExpr.convBlockE 0 0 (FExpr.firstConvE FExpr.input)) := by
  refine ⟨by simp [residual_weights_computation], rfl, rfl, ?_⟩
  intro h
  have h2 := Option.some.inj h
  cases h2

/-- CLAIM C1 (amended): `residual_weights_computation(0, beta)` returns
the singleton `[beta]`, so at step 0 the `zip` in the residual loop
pairs `beta` with the single stored feature (the stem at scale 0, the
resampled seed elsewhere) and one residual term IS added: the step-0
feature equals the ConvBlock output plus `beta` times that stored
feature. -/
theorem claim_C1 :
    (∀ beta : ℚ, residual_weights_computation 0 beta = [beta]) ∧
    schedStep defaultConfig defaultNtc exprOps
        (mkInitState defaultConfig exprOps FExpr.input) = .next exprState1 :=
  ⟨fun _ => rfl, rfl⟩

/-- CLAIM C2 counterexample: `invalidConfig` violates the length
constraints (and references out-of-bounds steps), yet `FocNet.__init__`
succeeds on it. -/
theorem claim_C2_counterexample :
    (focNetInit invalidConfig).isOk = true ∧
    invalidConfig.n_convs_per_scale.length ≠ invalidConfig.n_scales ∧
    invalidConfig.communications_between_scales.length ≠ invalidConfig.n_scales - 1 :=
  ⟨rfl, by decide, by decide⟩

/-- CLAIM C2 (amended): `FocNet.__init__` performs no validation at
all: construction succeeds for every configuration, including those
with mismatched list lengths, out-of-range step references, or cyclic
dependency graphs. -/
theorem claim_C2 (cfg : FocNetConfig) : (focNetInit cfg).isOk = true := rfl

/-- CLAIM C3: for every `step >= 1` and every `beta`,
`residual_weights_computation(step, beta)` returns exactly `step`
scalars, equal to the spec recursion `w[step-1] = beta`,
`w[k-1] = (1 - (1+beta)/(step-k+1)) * w[k]` read in chronological
order (`specWeight beta i` is `w[step-1-i]`), and the last returned
weight equals `beta` exactly. -/
theorem claim_C3 (t : ℕ) (beta : ℚ) (ht : 1 ≤ t) :
    residual_weights_computation t beta =
        ((List.range t).map (specWeight beta)).reverse ∧
    (residual_weights_computation t beta).length = t ∧
    (residual_weights_computation t beta).getLast? = some beta := by
  have heq := residual_weights_eq_specWeights t beta ht
  refine ⟨heq, ?_, ?_⟩
  · rw [heq, List.length_reverse, List.length_map, List.length_range]
  · rw [heq, List.getLast?_reverse]
    obtain ⟨n, rfl⟩ : ∃ n, t = n + 1 := ⟨t - 1, (Nat.succ_pred_eq_of_pos ht).symm⟩
    rw [List.range_succ_eq_map]
    rfl

/-- Witness for CLAIM C3 at `step = 3`, `beta = 1/5`. -/
theorem claim_C3_witness :
    1 ≤ 3 ∧
    (residual_weights_computation 3 (1/5) =
        ((List.range 3).map (specWeight (1/5))).reverse ∧
      (residual_weights_computation 3 (1/5)).length = 3 ∧
      (residual_weights_computation 3 (1/5)).getLast? = some (1/5)) :=
  ⟨by decide, claim_C3 3 (1/5) (by decide)⟩

/-- CLAIM C4 counterexample: `residual_weights_computation(3, 1/5)` is
not `[0.004, -0.02, 0.2]` (exactly `[1/250, -1/50, 1/5]`): the spec's
derivation miscomputes the recursion. -/
theorem claim_C4_counterexample :
    residual_weights_computation 3 (1/5) ≠ [1/250, -(1/50), 1/5] := by
  norm_num [residual_weights_computation, List.range_succ]

/-- CLAIM C4 (amended): `weights(1, 0.2) = [0.2]` holds, but
`weights(3, 0.2) = [0.048, 0.08, 0.2]` (exactly `[6/125, 2/25, 1/5]`):
`w1 = (1 - 1.2/2) * 0.2 = 0.4 * 0.2 = 0.08` (the spec's `-0.02`
miscomputes `1 - 1.2/2` as `-0.1`), and
`w0 = (1 - 1.2/3) * 0.08 = 0.6 * 0.08 = 0.048`. -/
theorem claim_C4 :
    residual_weights_computation 1 (1/5) = [1/5] ∧
    residual_weights_computation 3 (1/5) = [6/125, 2/25, 1/5] := by
  constructor <;> norm_num [residual_weights_computation, List.range_succ]

/-- CLAIM C6: for the default configuration, the scheduler loop of
`FocNet.call` reaches the terminal condition (scale 0 with step
`n_convs_per_scale[0] = 5`) after exactly 55 iterations, for EVERY
tensor semantics and every input (the 56th fuel unit is consumed by the
final loop-condition check; 55 units are not enough, and the erased
control state of the final state is always the same). -/
theorem claim_C6 {τ : Type} (ops : TensorOps τ) (input : τ) :
    (∃ st, runSched defaultConfig defaultNtc ops 56
          (mkInitState defaultConfig ops input) = some st ∧
        st.i_scale = 0 ∧
        st.i_feature = defaultConfig.n_convs_per_scale.headD 0 ∧
        eraseState st = ust 0 5 6 12 12 8 34) ∧
    runSched defaultConfig defaultNtc ops 55
      (mkInitState defaultConfig ops input) = none := by
  have he : eraseState (mkInitState defaultConfig ops input) =
      mkInitState defaultConfig unitOps () := by
    unfold eraseState mkInitState
    simp [List.map_set, List.map_replicate, eraseT]
  have h1 := runSched_erase defaultConfig defaultNtc ops 56
    (mkInitState defaultConfig ops input)
  have h2 := runSched_erase defaultConfig defaultNtc ops 55
    (mkInitState defaultConfig ops input)
  rw [he, default_unit_run] at h1
  rw [he, default_unit_run_none] at h2
  constructor
  · cases hrun : runSched defaultConfig defaultNtc ops 56
        (mkInitState defaultConfig ops input) with
    | none => rw [hrun] at h1; cases h1
    | some st =>
      rw [hrun] at h1
      have hst : eraseState st = ust 0 5 6 12 12 8 34 := Option.some.inj h1.symm
      refine ⟨st, rfl, ?_, ?_, hst⟩
      · have := congrArg SchedState.i_scale hst
        simpa [eraseState] using this
      · have := congrArg SchedState.i_feature hst
        simpa [eraseState, ust] using this
  · cases hrun : runSched defaultConfig defaultNtc ops 55
        (mkInitState defaultConfig ops input) with
    | none => rfl
    | some st => rw [hrun] at h2; cases h2

/-- All coordinates a configuration owns a ConvBlock for: `(sc, ft)`
with `ft < n_convs_per_scale[sc]`. -/
def allCoords (ncs : List ℕ) : List Coord :=
  (ncs.enum.map (fun p => (List.range p.2).map (fun f => (p.1, f)))).flatten

/-- CLAIM C7: in the default run, the ConvBlock invocation log (one
entry per `conv_blocks_per_scale[scale][step]` call) has no duplicate
coordinate, has exactly 34 = 5+11+11+7 entries, and covers every
coordinate of the configuration: each ConvBlock instance is invoked
exactly once per forward pass, and no coordinate is ever recomputed
(later dependency lookups reuse the stored features). -/
theorem claim_C7 :
    ∃ st, runSched defaultConfig defaultNtc unitOps 56
        (mkInitState defaultConfig unitOps ()) = some st ∧
      (st.conv_log.map (fun e => (e.1, e.2.1))).Nodup ∧
      st.conv_log.length = 34 ∧
      (allCoords defaultConfig.n_convs_per_scale).all
        (fun p => (st.conv_log.map (fun e => (e.1, e.2.1))).contains p) = true := by
  refine ⟨ust 0 5 6 12 12 8 34, default_unit_run, ?_, ?_, ?_⟩
  · decide
  · decide
  · decide

/-- CLAIM C8: when the default run terminates, the store of scale 0
holds exactly `n_convs_per_scale[0] + 1 = 6` features, its
step-indexed entry `FeatureStore[0][n_convs_per_scale[0]]` coincides
with the last materialized feature of scale 0, and the output of
`FocNet.call` is the final 1x1 convolution applied to exactly that
feature. -/
theorem claim_C8 :
    ∃ st, runSched defaultConfig defaultNtc (shapeOps 128) 56
        (mkInitState defaultConfig (shapeOps 128) (some (1, 8, 8))) = some st ∧
      ∃ l, st.features_per_scale.get? 0 = some l ∧
        l.length = defaultConfig.n_convs_per_scale.headD 0 + 1 ∧
        l.get? (defaultConfig.n_convs_per_scale.headD 0) = l.getLast? ∧
        focnetCall defaultConfig (shapeOps 128) (some (1, 8, 8)) 56 =
          (l.get? (defaultConfig.n_convs_per_scale.headD 0)).map (shapeOps 128).finalConv := by
  refine ⟨sst 0 5 6 12 12 8 34, default_shape_run,
    List.replicate 6 (some (128, 8, 8)), rfl, by decide, by decide, ?_⟩
  rw [focnetCall_default_shape]
  decide

/-- Witness for CLAIM C9: the default configuration on a `1x8x8` input
(`8 = 2^3 * 1`) returns a `1x8x8` output. -/
theorem claim_C9_witness :
    (1 : ℕ) = 1 ∧ (8 : ℕ) = 8 ∧ (8 : ℕ) = 8 :=
  claim_C9 defaultConfig 1 8 8 1 1 56 (by decide) (by decide) 1 8 8
    focnetCall_default_shape

/-- CLAIM C10: in the default run, for every tensor semantics and every
input, whenever a ConvBlock is invoked for coordinate
`(i_scale, i_feature)` the store of that scale holds exactly
`i_feature + 1` entries (index 0 being the stem at scale 0 and the
resampled seed elsewhere); the run completes without any out-of-range
access (every list subscript of the loop is `.fail`-checked, and the
run returns `some`), and the invocation log is exactly
`defaultConvLog`. -/
theorem claim_C10 {τ : Type} (ops : TensorOps τ) (input : τ) :
    ∃ st, runSched defaultConfig defaultNtc ops 56
        (mkInitState defaultConfig ops input) = some st ∧
      st.conv_log = defaultConvLog ∧
      st.conv_log.all (fun e => e.2.2 == e.2.1 + 1) = true := by
  have he : eraseState (mkInitState defaultConfig ops input) =
      mkInitState defaultConfig unitOps () := by
    unfold eraseState mkInitState
    simp [List.map_set, List.map_replicate, eraseT]
  have h1 := runSched_erase defaultConfig defaultNtc ops 56
    (mkInitState defaultConfig ops input)
  rw [he, default_unit_run] at h1
  cases hrun : runSched defaultConfig defaultNtc ops 56
      (mkInitState defaultConfig ops input) with
  | none => rw [hrun] at h1; cases h1
  | some st =>
    rw [hrun] at h1
    have hst : eraseState st = ust 0 5 6 12 12 8 34 := Option.some.inj h1.symm
    have hlog : st.conv_log = defaultConvLog := by
      have := congrArg SchedState.conv_log hst
      simpa [eraseState, ust] using this
    refine ⟨st, rfl, hlog, ?_⟩
    rw [hlog]
    decide
